import Mathlib

/-!
Verification development for the `ollama-create` repository (src/main.js and
the unnamed second script).  The definitions below are a shallow embedding of
the GGUF metadata parser (`parseGGUFMetadata`), the layer reconciler
(`downloadLayers` and its helpers) and the registry JSON handling
(`downloadJSON`).  Machine integers are modelled as `Nat`/`Int`; Node buffers
are `List Nat` of byte values; file-system and network effects are modelled by
explicit environments and action traces.
-/

set_option maxRecDepth 4000

namespace OllamaCreate

/-!
## JavaScript values

The metadata object built by `parseGGUFMetadata` is a dynamic JS object.  We
model the values that can appear in it: numbers (all integer reads; `Number`
conversion of 64-bit reads is modelled exactly, which matches JS below 2^53),
raw IEEE-754 bit patterns for float reads (no claim computes with floats, so
the 4- or 8-byte payload is carried as its big-endian integer value),
booleans, strings, arrays and objects.  JS arrays are `instanceof Object` and
can carry named properties, so `arr` carries a property list as well.
Property lists keep JS insertion order: assignment replaces in place or
appends at the end.
-/

inductive JSVal where
  | num (n : Int)
  | f32bits (n : Nat)
  | f64bits (n : Nat)
  | bool (b : Bool)
  | str (s : String)
  | arr (elems : List JSVal) (props : List (String × JSVal))
  | obj (props : List (String × JSVal))

def lookupProp : List (String × JSVal) → String → Option JSVal
  | [], _ => none
  | (k', v) :: rest, k => if k' = k then some v else lookupProp rest k

def setPropList : List (String × JSVal) → String → JSVal → List (String × JSVal)
  | [], k, v => [(k, v)]
  | (k', v') :: rest, k, v =>
      if k' = k then (k, v) :: rest else (k', v') :: setPropList rest k v

/-- Property read `t[k]`; scalars have no own properties. -/
def getProp (t : JSVal) (k : String) : Option JSVal :=
  match t with
  | .arr _ ps => lookupProp ps k
  | .obj ps => lookupProp ps k
  | _ => none

/-- Property write `t[k] = v`; on a non-object it is a no-op (the parser only
ever assigns into objects or arrays). -/
def setProp (t : JSVal) (k : String) (v : JSVal) : JSVal :=
  match t with
  | .arr es ps => .arr es (setPropList ps k v)
  | .obj ps => .obj (setPropList ps k v)
  | t => t

/-- JS `x instanceof Object`: true for arrays and plain objects. -/
def isObject : JSVal → Bool
  | .arr _ _ => true
  | .obj _ => true
  | _ => false

/-- The navigation step of the key-path insertion loop in
`parseGGUFMetadata` (src/main.js lines 290-299): a missing child becomes
`{}`, a non-object child `c` is demoted to `{value: c}`, an object child is
entered as is. -/
def childFor (t : JSVal) (k : String) : JSVal :=
  match getProp t k with
  | none => .obj []
  | some c => if isObject c then c else .obj [("value", c)]

/-- `key.split('.').forEach(...)` of src/main.js lines 290-299, as a pure
function: walk the path, assigning the value at the last segment. -/
def insertPath (t : JSVal) (p : List String) (v : JSVal) : JSVal :=
  match p with
  | [] => v
  | [k] => setProp t k v
  | k :: ks => setProp t k (insertPath (childFor t k) ks v)

def lookupPath (t : JSVal) : List String → Option JSVal
  | [] => some t
  | k :: ks =>
      match getProp t k with
      | none => none
      | some c => lookupPath c ks

/-!
## The binary reader

`fs.FileHandle.read(Buffer.alloc(n), 0, n, offset)` fills a zeroed buffer
with the bytes available at `offset`; when fewer than `n` bytes remain the
tail of the buffer simply stays zero and no error is raised.  `read` in
`parseGGUFMetadata` (src/main.js lines 215-219) then reverses the buffer when
little-endian mode is active and advances the offset by `n` unconditionally.
-/

/-- The buffer produced by `file.read(Buffer.alloc(n), 0, n, offset)`:
the available bytes, zero-padded to length `n`. -/
def readBytesAt (file : List Nat) (offset n : Nat) : List Nat :=
  let avail := (file.drop offset).take n
  avail ++ List.replicate (n - avail.length) 0

/-- The `read` helper of `parseGGUFMetadata`: returns the (possibly reversed)
buffer and the advanced offset. -/
def readBuf (file : List Nat) (le : Bool) (offset n : Nat) : List Nat × Nat :=
  let b := readBytesAt file offset n
  (if le then b.reverse else b, offset + n)

/-- Big-endian unsigned integer value of a byte list (`readUIntNBE`). -/
def uintBE (bs : List Nat) : Nat :=
  bs.foldl (fun a b => a * 256 + b) 0

/-- Little-endian unsigned integer value of a byte list (`readUInt32LE`). -/
def uintLE (bs : List Nat) : Nat :=
  uintBE bs.reverse

/-- Two's-complement reinterpretation of a `w`-bit unsigned value
(`readIntNBE` after `readUIntNBE`). -/
def toSigned (w : Nat) (n : Nat) : Int :=
  if n < 2 ^ (w - 1) then (n : Int) else (n : Int) - 2 ^ w

/-- `buffer.toString()` (UTF-8 decode).  Modelled as the byte-to-code-point
map, which is exact for ASCII data; every string a claim touches (the magic
literal and metadata keys) is ASCII. -/
def bufToString (bs : List Nat) : String :=
  String.mk (bs.map Char.ofNat)

/-- `pat` occurs at the front of `cs` (both as character lists). -/
def leadsWith : List Char → List Char → Bool
  | [], _ => true
  | _ :: _, [] => false
  | p :: ps, c :: cs => p == c && leadsWith ps cs

/-- `s` ends with `suf` (kernel-computable form of `String.endsWith`). -/
def strEndsWith (s suf : String) : Bool :=
  leadsWith suf.toList.reverse s.toList.reverse

def splitOnDotAux : List Char → List Char → List String
  | [], acc => [String.mk acc.reverse]
  | c :: cs, acc =>
      if c = '.' then String.mk acc.reverse :: splitOnDotAux cs []
      else splitOnDotAux cs (c :: acc)

/-- `key.split('.')` of the source (kernel-computable form of
`String.splitOn "."`). -/
def splitOnDot (s : String) : List String := splitOnDotAux s.toList []

/-- Errors of the GGUF decode.  The source throws `Error` with a message; the
constructors here name the distinct throw sites of `parseGGUFMetadata`.
`outOfFuel` is a model artifact: the Lean recursion carries fuel, and all
theorems either supply enough fuel or hypothesise a successful read. -/
inductive GGUFErr where
  | invalidFormat
  | unsupportedVersion
  | unsupportedType (t : Nat)
  | outOfFuel
deriving Repr, DecidableEq

/-- Version detection of src/main.js lines 271-278: interpret the 4 version
bytes little-endian; accept in [1,3] and lock little-endian mode, otherwise
reinterpret big-endian, accept in [1,3] with big-endian mode, else fail.
Returns the version together with the `littleEndian` flag used for every
later read. -/
def detectVersion (vbytes : List Nat) : Except GGUFErr (Nat × Bool) :=
  let vle := uintLE vbytes
  if vle ≤ 3 ∧ 1 ≤ vle then Except.ok (vle, true)
  else
    let vbe := uintBE vbytes
    if 3 < vbe ∨ vbe < 1 then Except.error GGUFErr.unsupportedVersion
    else Except.ok (vbe, false)

/-!
## The typed value decoder

`readType` of src/main.js lines 221-261.  The recursion carries fuel because
array lengths come from the stream; every recursive call strictly decreases
it, so any terminating source computation is reproduced with enough fuel.
The source's `readLength` closure (line 263) consults `metadata.version`
dynamically on every call (the key-value loop can overwrite it), so the
decoder takes the current metadata object `acc` as a read-only argument.
-/

/-- JS strict comparison `metadata.version === 1`. -/
def isNumOne : Option JSVal → Bool
  | some (JSVal.num n) => n == 1
  | _ => false

/-- The loop bound test `i < metadata.kv_count`.  A non-numeric `kv_count`
coerces to `NaN` in JS and the comparison is false; a numeric string could
coerce differently, but no claim reaches that corner. -/
def jsLtNum (i : Nat) (v : Option JSVal) : Bool :=
  match v with
  | some (JSVal.num n) => decide ((i : Int) < n)
  | _ => false

/-- Coercion of a decoded length or type tag back to a `Nat`; `readLength`
and `readType(4)` always produce a non-negative `num`, so the fallback is
unreachable. -/
def jsToNat : JSVal → Nat
  | JSVal.num n => n.toNat
  | _ => 0

def readType (file : List Nat) (le : Bool) (acc : JSVal) :
    Nat → Nat → Nat → Except GGUFErr (JSVal × Nat)
  | 0, _, _ => Except.error GGUFErr.outOfFuel
  | fuel + 1, t, off =>
    match t with
    | 0 =>
        let (b, o) := readBuf file le off 1
        Except.ok (JSVal.num (uintBE b), o)
    | 1 =>
        let (b, o) := readBuf file le off 1
        Except.ok (JSVal.num (toSigned 8 (uintBE b)), o)
    | 2 =>
        let (b, o) := readBuf file le off 2
        Except.ok (JSVal.num (uintBE b), o)
    | 3 =>
        let (b, o) := readBuf file le off 2
        Except.ok (JSVal.num (toSigned 16 (uintBE b)), o)
    | 4 =>
        let (b, o) := readBuf file le off 4
        Except.ok (JSVal.num (uintBE b), o)
    | 5 =>
        let (b, o) := readBuf file le off 4
        Except.ok (JSVal.num (toSigned 32 (uintBE b)), o)
    | 6 =>
        let (b, o) := readBuf file le off 4
        Except.ok (JSVal.f32bits (uintBE b), o)
    | 7 =>
        let (b, o) := readBuf file le off 1
        Except.ok (JSVal.bool (decide (toSigned 8 (uintBE b) ≠ 0)), o)
    | 8 =>
        -- string: readLength, read that many bytes, reverse, decode
        match (if isNumOne (getProp acc "version") then readType file le acc fuel 4 off
               else readType file le acc fuel 10 off) with
        | Except.error e => Except.error e
        | Except.ok (lv, o₁) =>
            let (b, o₂) := readBuf file le o₁ (jsToNat lv)
            Except.ok (JSVal.str (bufToString b.reverse), o₂)
    | 9 =>
        -- array: element type tag, length, then that many elements
        match readType file le acc fuel 4 off with
        | Except.error e => Except.error e
        | Except.ok (tv, o₁) =>
            match (if isNumOne (getProp acc "version") then readType file le acc fuel 4 o₁
                   else readType file le acc fuel 10 o₁) with
            | Except.error e => Except.error e
            | Except.ok (lv, o₂) =>
                match (List.range (jsToNat lv)).foldlM
                    (fun (p : List JSVal × Nat) _ =>
                      match readType file le acc fuel (jsToNat tv) p.2 with
                      | Except.error e => Except.error e
                      | Except.ok (v, o) => Except.ok (p.1 ++ [v], o))
                    (([], o₂) : List JSVal × Nat) with
                | Except.error e => Except.error e
                | Except.ok r => Except.ok (JSVal.arr r.1 [], r.2)
    | 10 =>
        let (b, o) := readBuf file le off 8
        Except.ok (JSVal.num (uintBE b), o)
    | 11 =>
        let (b, o) := readBuf file le off 8
        Except.ok (JSVal.num (toSigned 64 (uintBE b)), o)
    | 12 =>
        let (b, o) := readBuf file le off 8
        Except.ok (JSVal.f64bits (uintBE b), o)
    | t => Except.error (GGUFErr.unsupportedType t)

/-- The `readLength` closure of src/main.js line 263: 32-bit length in
version 1, 64-bit otherwise.  (Inside `readType` the same dispatch is
inlined; both run `readType` with the fuel one step lower than the caller.) -/
def readLength (file : List Nat) (le : Bool) (acc : JSVal) (fuel off : Nat) :
    Except GGUFErr (JSVal × Nat) :=
  if isNumOne (getProp acc "version") then readType file le acc fuel 4 off
  else readType file le acc fuel 10 off

/-- `METADATA_OVERRIDES` of src/main.js lines 25-31 as an own-property
lookup; every value in the object is the empty array. -/
def metadataOverride (k : String) : Option JSVal :=
  if k = "tokenizer.ggml.tokens" ∨ k = "tokenizer.ggml.scores" ∨
      k = "tokenizer.ggml.token_type" ∨ k = "tokenizer.ggml.merges" ∨
      k = "tokenizer.ggml.added_tokens" then
    some (JSVal.arr [] [])
  else none

/-- `readType(8)` always yields a string. -/
def asStr : JSVal → String
  | JSVal.str s => s
  | _ => ""

/-- The key-value loop of src/main.js lines 283-300.  The bound
`i < metadata.kv_count` is re-read from the object each iteration, as in the
source.  In quick mode a key with a (truthy) override breaks out of the loop
after the value has been read and before anything is stored; otherwise the
value — or its override — is inserted along the dotted key path. -/
def parseKVLoop (file : List Nat) (le : Bool) (quick : Bool) :
    Nat → Nat → JSVal → Nat → Except GGUFErr (JSVal × Nat)
  | 0, _, _, _ => Except.error GGUFErr.outOfFuel
  | fuel + 1, i, acc, off =>
    if jsLtNum i (getProp acc "kv_count") then
      match readType file le acc fuel 8 off with
      | Except.error e => Except.error e
      | Except.ok (kv, o₁) =>
        match readType file le acc fuel 4 o₁ with
        | Except.error e => Except.error e
        | Except.ok (tv, o₂) =>
          match readType file le acc fuel (jsToNat tv) o₂ with
          | Except.error e => Except.error e
          | Except.ok (vv, o₃) =>
            let key := asStr kv
            if quick && (metadataOverride key).isSome then
              Except.ok (acc, o₃)
            else
              parseKVLoop file le quick fuel (i + 1)
                (insertPath acc (splitOnDot key) ((metadataOverride key).getD vv)) o₃
    else Except.ok (acc, off)

/-- `parseGGUFMetadata` of src/main.js lines 209-305, returning the metadata
object together with the final offset.  Magic check, twice-interpreted
version field, tensor and key-value counts, then the key-value loop. -/
def parseGGUFMetadataSt (file : List Nat) (quick : Bool) (fuel : Nat) :
    Except GGUFErr (JSVal × Nat) :=
  let (m, o₁) := readBuf file false 0 4
  if bufToString m = "GGUF" then
    let (vb, o₂) := readBuf file false o₁ 4
    match detectVersion vb with
    | Except.error e => Except.error e
    | Except.ok (ver, le) =>
      let acc₀ := setProp (JSVal.obj []) "version" (JSVal.num (ver : Int))
      match readLength file le acc₀ fuel o₂ with
      | Except.error e => Except.error e
      | Except.ok (tc, o₃) =>
        let acc₁ := setProp acc₀ "tensor_count" tc
        match readLength file le acc₁ fuel o₃ with
        | Except.error e => Except.error e
        | Except.ok (kc, o₄) =>
          let acc₂ := setProp acc₁ "kv_count" kc
          parseKVLoop file le quick fuel 0 acc₂ o₄
  else Except.error GGUFErr.invalidFormat

def parseGGUFMetadata (file : List Nat) (quick : Bool) (fuel : Nat) :
    Except GGUFErr JSVal :=
  Except.map Prod.fst (parseGGUFMetadataSt file quick fuel)

/-!
## The layer reconciler

`downloadLayers` of src/main.js lines 325-364 and its helpers.  File-system
and hashing effects are modelled by an environment of pure functions
describing the world before the call (`fsExists`, `digestOf`, `sizeOf`,
`resolve`) plus a `written` list of paths created during the call; the side
effects performed are recorded as an `Action` trace.
-/

structure Layer where
  mediaType : String
  digest : String
  size : Nat
deriving Repr, DecidableEq

/-- One entry of the `localFiles` mapping: `false` (an explicitly excluded
role) or an array of candidate file paths.  A key that is absent from the
association list corresponds to an absent/`undefined` JS property. -/
inductive Override where
  | excluded
  | files (fs : List String)
deriving Repr, DecidableEq

def lookupOv : List (String × Override) → String → Option Override
  | [], _ => none
  | (k', v) :: rest, k => if k' = k then some v else lookupOv rest k

def setOv : List (String × Override) → String → Override → List (String × Override)
  | [], k, v => [(k, v)]
  | (k', v') :: rest, k, v =>
      if k' = k then (k, v) :: rest else (k', v') :: setOv rest k v

structure Env where
  fsExists : String → Bool
  digestOf : String → String
  sizeOf : String → Nat
  resolve : String → String

inductive Action where
  | downloadToFile (url : String) (path : String)
  | symlink (blobsDir : String) (digest : String) (target : String)
  | warn (file : String)
deriving Repr, DecidableEq

/-- `path.join(a, b)`; inputs in this program carry no `..`/`.` segments, so
plain concatenation is exact. -/
def pathJoin (a b : String) : String := a ++ "/" ++ b

/-- `digest.replace(':', '-')` — a string pattern replaces the first
occurrence only. -/
def replaceFirstColon : List Char → List Char
  | [] => []
  | ':' :: rest => '-' :: rest
  | c :: rest => c :: replaceFirstColon rest

def replaceColonDash (s : String) : String :=
  String.mk (replaceFirstColon s.toList)

/-- `layer.mediaType.replace(/\.prompt$/, '.template')` (src/main.js line
330): prompt is the same role as template. -/
def normalizeMediaType (m : String) : String :=
  if strEndsWith m ".prompt" then
    String.mk (m.toList.take (m.toList.length - 7)) ++ ".template"
  else m

/-- The log line of `createSymlink` (src/main.js line 308) evaluates
`/:(.{12})/.exec(digest)[1]`: it requires a colon followed by at least 12
characters, else the access on `null` throws a `TypeError`. -/
def digestLinkable : List Char → Bool
  | [] => false
  | ':' :: rest => decide (12 ≤ rest.length) || digestLinkable rest
  | _ :: rest => digestLinkable rest

inductive RecErr where
  | typeError
deriving Repr, DecidableEq

/-- `createSymlink` of src/main.js lines 307-313: emits the symlink from the
digest-keyed blob-store path to the resolved file path (the existing entry is
removed first, hence create-or-replace). -/
def createSymlink (env : Env) (blobsDir digest file : String) : Except RecErr Action :=
  if digestLinkable digest.toList then
    Except.ok (Action.symlink blobsDir digest (env.resolve file))
  else Except.error RecErr.typeError

/-- `FILE_EXTENSIONS` of src/main.js lines 33-42. -/
def fileExtension (t : String) : Option String :=
  if t = "model" then some "gguf"
  else if t = "params" then some "json"
  else if t = "messages" then some "json"
  else if t = "template" then some "txt"
  else if t = "system" then some "txt"
  else if t = "adapter" then some "gguf"
  else if t = "projector" then some "gguf"
  else if t = "license" then some "txt"
  else none

/-- `mediaType.replace(/.*[.+]/, '')`: the suffix after the last `.` or `+`. -/
def afterLastDotPlus (s : String) : String :=
  String.mk ((s.toList.reverse.takeWhile (fun c => c ≠ '.' ∧ c ≠ '+')).reverse)

/-- `joinByDash` of src/main.js lines 198-200: drop falsy parts (modelled as
`none` or the empty string), join with dashes, replace whitespace by dashes
(spaces are the only whitespace reaching it). -/
def joinByDash (parts : List (Option String)) : String :=
  String.mk ((String.intercalate "-"
    ((parts.filterMap id).filter (fun s => s ≠ ""))).toList.map
      (fun c => if c = ' ' then '-' else c))

/-- `getFileInDir` of src/main.js lines 315-323, returning the chosen path
(or `none` when no output directory is given) and the updated per-type
counter map.  The source's `(cnt[type] || -1) + 1` treats a stored `0` as
falsy, and a counter value `0` is dropped from the name by `joinByDash`. -/
def getFileInDir (dir : Option String) (mediaType namePrefix : String)
    (cnt : List (String × Int)) : Option String × List (String × Int) :=
  match dir with
  | none => (none, cnt)
  | some d =>
      let type := afterLastDotPlus mediaType
      let ext := fileExtension type
      let old : Int := match cnt.lookup type with
        | some n => if n ≠ 0 then n else -1
        | none => -1
      let c := old + 1
      let cnt' := (type, c) :: cnt.eraseP (fun p => p.1 == type)
      let typePart : Option String :=
        if type = "model" then none else match ext with
          | none => none
          | some _ => some type
      let cntPart : Option String := if c ≠ 0 then some (toString c) else none
      let name := joinByDash [some namePrefix, typePart, cntPart]
      (some (pathJoin d (name ++ "." ++ (ext.getD type))), cnt')

/-- `fileExists` of src/main.js lines 188-196 (falsy paths are rejected
before touching the file system), extended with the paths written earlier in
the same `downloadLayers` run. -/
def fileExistsE (env : Env) (written : List String) (p : String) : Bool :=
  p ≠ "" && (env.fsExists p || written.contains p)

/-- State threaded through the reconciliation loops: the output layer list,
the action trace, the (mutated) local-file overrides, the `cnt` map of
`getFileInDir`, and the paths created so far. -/
structure RecSt where
  newLayers : List Layer
  actions : List Action
  localFiles : List (String × Override)
  cnt : List (String × Int)
  written : List String
deriving Repr, DecidableEq

/-- The no-candidate branch of the layer loop (src/main.js lines 344-346):
download into the blob store unless the blob is already there (or `force`). -/
def layerNoFile (env : Env) (url blobFile : String) (force : Bool)
    (st : RecSt) (layer : Layer) : RecSt :=
  if force || !(fileExistsE env st.written blobFile) then
    { st with newLayers := st.newLayers ++ [layer],
              actions := st.actions ++ [Action.downloadToFile url blobFile],
              written := st.written ++ [blobFile] }
  else { st with newLayers := st.newLayers ++ [layer] }

/-- The body of the layer loop after the candidate file (if any) has been
chosen (src/main.js lines 336-347). -/
def layerStep (env : Env) (blobsDir url blobFile : String) (force : Bool)
    (st : RecSt) (layer : Layer) (fileOpt : Option String) : Except RecErr RecSt :=
  match fileOpt with
  | none => Except.ok (layerNoFile env url blobFile force st layer)
  | some f =>
      if f = "" then Except.ok (layerNoFile env url blobFile force st layer)
      else if fileExistsE env st.written f then
        -- the local file exists: its digest and size replace the manifest's
        let d := env.digestOf f
        (createSymlink env blobsDir d f).map (fun a =>
          { st with newLayers := st.newLayers ++
                      [{ layer with digest := d, size := env.sizeOf f }],
                    actions := st.actions ++ [a],
                    written := st.written ++ [pathJoin blobsDir (replaceColonDash d)] })
      else
        -- missing candidate: download the original blob to it, then symlink
        (createSymlink env blobsDir layer.digest f).map (fun a =>
          { st with newLayers := st.newLayers ++ [layer],
                    actions := st.actions ++ [Action.downloadToFile url f, a],
                    written := st.written ++
                      [f, pathJoin blobsDir (replaceColonDash layer.digest)] })

/-- One iteration of `for (const layer of layers)` (src/main.js lines
328-348). -/
def processLayer (env : Env) (blobsUrl blobsDir : String) (outDir : Option String)
    (modelName : String) (force : Bool) (st : RecSt) (layer : Layer) :
    Except RecErr RecSt :=
  let mt := normalizeMediaType layer.mediaType
  let url := blobsUrl ++ "/" ++ layer.digest
  let blobFile := pathJoin blobsDir (replaceColonDash layer.digest)
  match lookupOv st.localFiles mt with
  | some Override.excluded => Except.ok st
  | some (Override.files fs) =>
      layerStep env blobsDir url blobFile force
        { st with localFiles := setOv st.localFiles mt (Override.files fs.tail) }
        layer fs.head?
  | none =>
      let (f, cnt') := getFileInDir outDir layer.mediaType modelName st.cnt
      layerStep env blobsDir url blobFile force { st with cnt := cnt' } layer f

/-- One candidate of the trailing pass (src/main.js lines 351-361): warn and
skip a missing file, otherwise hash it, symlink it and append a new layer. -/
def processCandidate (env : Env) (blobsDir mediaType : String)
    (st : RecSt) (f : String) : Except RecErr RecSt :=
  if !(fileExistsE env st.written f) then
    Except.ok { st with actions := st.actions ++ [Action.warn f] }
  else
    let d := env.digestOf f
    (createSymlink env blobsDir d f).map (fun a =>
      { st with newLayers := st.newLayers ++
                  [{ mediaType := mediaType, digest := d, size := env.sizeOf f }],
                actions := st.actions ++ [a],
                written := st.written ++ [pathJoin blobsDir (replaceColonDash d)] })

/-- `downloadLayers` of src/main.js lines 325-364: the layer loop over the
manifest, then the trailing pass over the remaining local-file candidates. -/
def downloadLayers (env : Env) (blobsUrl blobsDir : String) (layers : List Layer)
    (localFiles : List (String × Override)) (outDir : Option String)
    (modelName : String) (force : Bool) : Except RecErr RecSt := do
  let st₀ : RecSt := ⟨[], [], localFiles, [], []⟩
  let st₁ ← layers.foldlM (processLayer env blobsUrl blobsDir outDir modelName force) st₀
  st₁.localFiles.foldlM
    (fun st p =>
      match p.2 with
      | Override.excluded => Except.ok st
      | Override.files fs => fs.foldlM (processCandidate env blobsDir p.1) st)
    st₁

/-!
## Registry JSON handling

`downloadJSON` of src/main.js lines 145-156.  The HTTP layer is summarised
by the response's `ok` flag, status text, and parsed JSON body; of the body
only the `errors` member matters, each error carrying optional `message` and
`code` strings.
-/

structure RegErrorObj where
  message : Option String
  code : Option String
deriving Repr, DecidableEq

structure ManifestBody where
  errors : Option (List RegErrorObj)
deriving Repr, DecidableEq

inductive FetchErr where
  | networkError (msg : String)
  | registryError (msg : String)
  | typeError
deriving Repr, DecidableEq

/-- JS `a || b` on optional strings: an absent or empty `a` falls through. -/
def jsOrStr (a b : Option String) : Option String :=
  match a with
  | some s => if s ≠ "" then some s else b
  | none => b

/-- The `json.errors` check of src/main.js lines 151-154.  An empty `errors`
array is truthy, so `json.errors[0]` is `undefined` and reading `.message`
on it throws a `TypeError` before any `Error` is constructed. -/
def handleManifestJSON (url : String) (j : ManifestBody) : Except FetchErr ManifestBody :=
  match j.errors with
  | none => Except.ok j
  | some [] => Except.error FetchErr.typeError
  | some (e :: _) =>
      Except.error (FetchErr.registryError
        ("failed to download " ++ url ++ ": " ++ ((jsOrStr e.message e.code).getD "")))

/-- `downloadJSON` of src/main.js lines 145-156: non-success status fails
first; otherwise the parsed body's `errors` array is inspected. -/
def downloadJSON (url : String) (ok : Bool) (statusText : String)
    (j : ManifestBody) : Except FetchErr ManifestBody :=
  if !ok then Except.error (FetchErr.networkError
    ("failed to download " ++ url ++ ": " ++ statusText))
  else handleManifestJSON url j

/-- Discriminator used to state that a failure is not a `RegistryError`. -/
def isRegistryError : Except FetchErr ManifestBody → Bool
  | Except.error (FetchErr.registryError _) => true
  | _ => false

/-!
## Concrete test streams

Byte-level helpers and the GGUF stream used by the witnesses and
counterexamples: version 2, little-endian, two key-value pairs — first
`tokenizer.ggml.tokens` as a one-element string array, then
`general.architecture = "llama"`.
-/

def asciiBytes (s : String) : List Nat := s.toList.map Char.toNat

def u32leBytes (n : Nat) : List Nat :=
  [n % 256, n / 2 ^ 8 % 256, n / 2 ^ 16 % 256, n / 2 ^ 24 % 256]

def u64leBytes (n : Nat) : List Nat :=
  [n % 256, n / 2 ^ 8 % 256, n / 2 ^ 16 % 256, n / 2 ^ 24 % 256,
   n / 2 ^ 32 % 256, n / 2 ^ 40 % 256, n / 2 ^ 48 % 256, n / 2 ^ 56 % 256]

def tokensStream : List Nat :=
  asciiBytes "GGUF" ++ u32leBytes 2 ++ u64leBytes 0 ++ u64leBytes 2 ++
  u64leBytes 21 ++ asciiBytes "tokenizer.ggml.tokens" ++ u32leBytes 9 ++
    u32leBytes 8 ++ u64leBytes 1 ++ u64leBytes 1 ++ asciiBytes "x" ++
  u64leBytes 20 ++ asciiBytes "general.architecture" ++ u32leBytes 8 ++
    u64leBytes 5 ++ asciiBytes "llama"

/-- The metadata object right after the header of `tokensStream` has been
read (offset 24). -/
def tokensHeaderAcc : JSVal :=
  JSVal.obj [("version", JSVal.num 2), ("tensor_count", JSVal.num 0),
             ("kv_count", JSVal.num 2)]

/-!
## Helper lemmas about property lists and the key-path tree
-/

theorem lookupProp_set_same (ps : List (String × JSVal)) (k : String) (v : JSVal) :
    lookupProp (setPropList ps k v) k = some v := by
  induction ps with
  | nil => simp [setPropList, lookupProp]
  | cons p rest ih =>
      obtain ⟨a, b⟩ := p
      by_cases h : a = k
      · simp [setPropList, h, lookupProp]
      · simp [setPropList, h, lookupProp, ih]

theorem lookupProp_set_ne (ps : List (String × JSVal)) (k k' : String) (v : JSVal)
    (h : k' ≠ k) : lookupProp (setPropList ps k v) k' = lookupProp ps k' := by
  induction ps with
  | nil => simp [setPropList, lookupProp, Ne.symm h]
  | cons p rest ih =>
      obtain ⟨a, b⟩ := p
      by_cases ha : a = k
      · subst ha
        simp [setPropList, lookupProp, Ne.symm h]
      · by_cases ha' : a = k'
        · subst ha'
          simp [setPropList, ha, lookupProp]
        · simp [setPropList, ha, lookupProp, ha', ih]

theorem getProp_setProp_same (t : JSVal) (k : String) (v : JSVal)
    (h : isObject t = true) : getProp (setProp t k v) k = some v := by
  cases t <;> simp [isObject] at h <;>
    simp [setProp, getProp, lookupProp_set_same]

theorem getProp_setProp_ne (t : JSVal) (k k' : String) (v : JSVal)
    (h : k' ≠ k) : getProp (setProp t k v) k' = getProp t k' := by
  cases t <;> simp [setProp, getProp, lookupProp_set_ne _ _ _ _ h]

theorem isObject_setProp (t : JSVal) (k : String) (v : JSVal) :
    isObject (setProp t k v) = isObject t := by
  cases t <;> rfl

theorem isObject_childFor (t : JSVal) (k : String) :
    isObject (childFor t k) = true := by
  unfold childFor
  cases h : getProp t k with
  | none => rfl
  | some c => cases c <;> rfl

theorem childFor_eq_of_object (t : JSVal) (k : String) (c : JSVal)
    (h : getProp t k = some c) (hc : isObject c = true) : childFor t k = c := by
  unfold childFor
  rw [h]
  simp [hc]

theorem childFor_eq_demote (t : JSVal) (k : String) (c : JSVal)
    (h : getProp t k = some c) (hc : isObject c = false) :
    childFor t k = JSVal.obj [("value", c)] := by
  unfold childFor
  rw [h]
  simp [hc]

theorem insertPath_one (t : JSVal) (k : String) (v : JSVal) :
    insertPath t [k] v = setProp t k v := rfl

theorem insertPath_cons (t : JSVal) (k a : String) (l : List String) (v : JSVal) :
    insertPath t (k :: a :: l) v = setProp t k (insertPath (childFor t k) (a :: l) v) := rfl

theorem lookupPath_cons (t : JSVal) (k : String) (l : List String) (c : JSVal)
    (h : getProp t k = some c) : lookupPath t (k :: l) = lookupPath c l := by
  simp [lookupPath, h]

theorem isObject_insertPath (t : JSVal) (p : List String) (v : JSVal)
    (hp : p ≠ []) (h : isObject t = true) : isObject (insertPath t p v) = true := by
  cases p with
  | nil => exact absurd rfl hp
  | cons k ks =>
      cases ks with
      | nil => rw [insertPath_one, isObject_setProp]; exact h
      | cons a as => rw [insertPath_cons, isObject_setProp]; exact h

theorem lookupPath_insertPath_self (p : List String) : ∀ (t v : JSVal),
    p ≠ [] → isObject t = true → lookupPath (insertPath t p v) p = some v := by
  induction p with
  | nil => intro t v hp _; exact absurd rfl hp
  | cons k ks ih =>
      intro t v _ ht
      cases ks with
      | nil =>
          rw [insertPath_one,
            lookupPath_cons _ _ _ _ (getProp_setProp_same t k v ht)]
          rfl
      | cons a as =>
          rw [insertPath_cons,
            lookupPath_cons _ _ _ _ (getProp_setProp_same t k _ ht)]
          exact ih (childFor t k) v (by simp) (isObject_childFor t k)

/-!
## Helper lemmas for the reconciler
-/

instance exceptDecEq {ε α : Type} [DecidableEq ε] [DecidableEq α] :
    DecidableEq (Except ε α) := fun x y =>
  match x, y with
  | Except.ok a, Except.ok b =>
      if h : a = b then Decidable.isTrue (by rw [h])
      else Decidable.isFalse (fun hc => h (Except.ok.inj hc))
  | Except.error e, Except.error f =>
      if h : e = f then Decidable.isTrue (by rw [h])
      else Decidable.isFalse (fun hc => h (Except.error.inj hc))
  | Except.ok _, Except.error _ => Decidable.isFalse (fun hc => Except.noConfusion hc)
  | Except.error _, Except.ok _ => Decidable.isFalse (fun hc => Except.noConfusion hc)

theorem bind_ok {ε α β : Type} (a : α) (f : α → Except ε β) :
    (Except.ok a >>= f) = f a := rfl

theorem bind_error {ε α β : Type} (e : ε) (f : α → Except ε β) :
    ((Except.error e : Except ε α) >>= f) = Except.error e := rfl

theorem pathJoin_ne_empty (a b : String) : pathJoin a b ≠ "" := by
  intro h
  have h1 := congrArg String.length h
  simp only [pathJoin, String.length_append] at h1
  have h2 : ("/" : String).length = 1 := rfl
  have h3 : ("" : String).length = 0 := rfl
  rw [h2, h3] at h1
  omega

theorem fsExists_of_not_fileExistsE (env : Env) (w : List String) (p : String)
    (hp : p ≠ "") (h : fileExistsE env w p = false) : env.fsExists p = false := by
  simp [fileExistsE, hp] at h
  exact h.1

theorem lookupOv_mem {l : List (String × Override)} {k : String} {v : Override}
    (h : lookupOv l k = some v) : (k, v) ∈ l := by
  induction l with
  | nil => cases h
  | cons p rest ih =>
      obtain ⟨a, b⟩ := p
      by_cases ha : a = k
      · subst ha
        simp only [lookupOv, if_pos rfl] at h
        obtain rfl := Option.some.inj h
        exact List.mem_cons_self _ _
      · simp only [lookupOv, if_neg ha] at h
        exact List.mem_cons_of_mem _ (ih h)

theorem lookupOv_set_ne (l : List (String × Override)) (k k' : String) (v : Override)
    (h : k' ≠ k) : lookupOv (setOv l k v) k' = lookupOv l k' := by
  induction l with
  | nil => simp [setOv, lookupOv, Ne.symm h]
  | cons p rest ih =>
      obtain ⟨a, b⟩ := p
      by_cases ha : a = k
      · subst ha
        simp [setOv, lookupOv, Ne.symm h]
      · by_cases ha' : a = k'
        · subst ha'
          simp [setOv, ha, lookupOv]
        · simp [setOv, ha, lookupOv, ha', ih]

theorem setOv_keys (l : List (String × Override)) (k : String) (v w : Override)
    (h : lookupOv l k = some w) : (setOv l k v).map Prod.fst = l.map Prod.fst := by
  induction l with
  | nil => cases h
  | cons p rest ih =>
      obtain ⟨a, b⟩ := p
      by_cases ha : a = k
      · subst ha
        simp [setOv]
      · simp only [lookupOv, if_neg ha] at h
        simp [setOv, ha, ih h]

theorem mem_setOv {l : List (String × Override)} {k : String} {v : Override}
    {p : String × Override} (h : p ∈ setOv l k v) : p ∈ l ∨ p = (k, v) := by
  induction l with
  | nil => simp [setOv] at h; exact Or.inr h
  | cons q rest ih =>
      obtain ⟨a, b⟩ := q
      by_cases ha : a = k
      · subst ha
        simp only [setOv, if_pos rfl] at h
        rcases List.mem_cons.mp h with he | hm
        · exact Or.inr he
        · exact Or.inl (List.mem_cons_of_mem _ hm)
      · simp only [setOv, if_neg ha] at h
        rcases List.mem_cons.mp h with he | hm
        · exact Or.inl (he ▸ List.mem_cons_self _ _)
        · rcases ih hm with h1 | h2
          · exact Or.inl (List.mem_cons_of_mem _ h1)
          · exact Or.inr h2

theorem lookupOv_of_mem_nodup {l : List (String × Override)} {k : String} {v : Override}
    (h : (k, v) ∈ l) (hnd : (l.map Prod.fst).Nodup) : lookupOv l k = some v := by
  induction l with
  | nil => cases h
  | cons p rest ih =>
      obtain ⟨a, b⟩ := p
      rcases List.mem_cons.mp h with he | hm
      · obtain ⟨h1, h2⟩ := Prod.mk.inj he
        subst h1
        subst h2
        simp [lookupOv]
      · have ha : a ≠ k := by
          intro hcon
          subst hcon
          have hmem : a ∈ rest.map Prod.fst := List.mem_map_of_mem Prod.fst hm
          exact (List.nodup_cons.mp (by simpa using hnd)).1 hmem
        simp only [lookupOv, if_neg ha]
        exact ih hm (List.nodup_cons.mp (by simpa using hnd)).2

/-- Invariant preservation through a monadic fold over `Except`. -/
theorem foldlM_inv {α σ ε : Type} (f : σ → α → Except ε σ) (P : σ → Prop) :
    ∀ (l : List α), (∀ s a, a ∈ l → P s → ∀ s', f s a = Except.ok s' → P s') →
    ∀ s s', P s → List.foldlM f s l = Except.ok s' → P s' := by
  intro l
  induction l with
  | nil =>
      intro _ s s' hp h
      obtain rfl := Except.ok.inj h
      exact hp
  | cons a l ih =>
      intro hstep s s' hp h
      rw [List.foldlM_cons] at h
      cases hf : f s a with
      | error e =>
          rw [hf, bind_error] at h
          exact Except.noConfusion h
      | ok s₁ =>
          rw [hf, bind_ok] at h
          exact ih (fun s a ha hp s' hf' => hstep s a (List.mem_cons_of_mem _ ha) hp s' hf')
            s₁ s' (hstep s a (List.mem_cons_self a l) hp s₁ hf) h

/-- Whatever branch `layerStep` takes, it leaves `localFiles` and `cnt`
untouched and appends exactly one layer carrying the input layer's
mediaType. -/
theorem layerStep_shape (env : Env) (bd url bf : String) (force : Bool)
    (st : RecSt) (layer : Layer) (fo : Option String) (st' : RecSt)
    (h : layerStep env bd url bf force st layer fo = Except.ok st') :
    st'.localFiles = st.localFiles ∧ st'.cnt = st.cnt ∧
    ∃ lx : Layer, lx.mediaType = layer.mediaType ∧
      st'.newLayers = st.newLayers ++ [lx] := by
  cases fo with
  | none =>
      simp only [layerStep, layerNoFile] at h
      split at h
      · obtain rfl := Except.ok.inj h
        exact ⟨rfl, rfl, layer, rfl, rfl⟩
      · obtain rfl := Except.ok.inj h
        exact ⟨rfl, rfl, layer, rfl, rfl⟩
  | some f =>
      simp only [layerStep] at h
      by_cases hf : f = ""
      · rw [if_pos hf] at h
        simp only [layerNoFile] at h
        split at h
        · obtain rfl := Except.ok.inj h
          exact ⟨rfl, rfl, layer, rfl, rfl⟩
        · obtain rfl := Except.ok.inj h
          exact ⟨rfl, rfl, layer, rfl, rfl⟩
      · rw [if_neg hf] at h
        split at h
        · simp only [createSymlink] at h
          split at h
          · simp only [Except.map] at h
            obtain rfl := Except.ok.inj h
            exact ⟨rfl, rfl,
              { layer with digest := env.digestOf f, size := env.sizeOf f }, rfl, rfl⟩
          · simp only [Except.map] at h
            exact Except.noConfusion h
        · simp only [createSymlink] at h
          split at h
          · simp only [Except.map] at h
            obtain rfl := Except.ok.inj h
            exact ⟨rfl, rfl, layer, rfl, rfl⟩
          · simp only [Except.map] at h
            exact Except.noConfusion h

theorem normalizeMediaType_eq_self {s : String} (h : strEndsWith s ".prompt" = false) :
    normalizeMediaType s = s := by
  simp [normalizeMediaType, h]

/-!
## Claim theorems
-/

/-- C1: after the magic, the 4-byte version field is read little-endian
first; a value in [1,3] locks little-endian mode, otherwise the same bytes
are reinterpreted big-endian and accepted when in [1,3], and otherwise the
decode fails with the unsupported-version error. -/
theorem version_field_two_pass_detection (b : List Nat) :
    (1 ≤ uintLE b ∧ uintLE b ≤ 3 →
      detectVersion b = Except.ok (uintLE b, true)) ∧
    (¬(1 ≤ uintLE b ∧ uintLE b ≤ 3) →
      (1 ≤ uintBE b ∧ uintBE b ≤ 3 →
        detectVersion b = Except.ok (uintBE b, false)) ∧
      (¬(1 ≤ uintBE b ∧ uintBE b ≤ 3) →
        detectVersion b = Except.error GGUFErr.unsupportedVersion)) := by
  refine ⟨fun h => ?_, fun h => ⟨fun h2 => ?_, fun h2 => ?_⟩⟩
  · simp only [detectVersion]
    rw [if_pos ⟨h.2, h.1⟩]
  · simp only [detectVersion]
    rw [if_neg (fun hc => h ⟨hc.2, hc.1⟩), if_neg (by omega)]
  · simp only [detectVersion]
    rw [if_neg (fun hc => h ⟨hc.2, hc.1⟩), if_pos (by omega)]

theorem version_field_two_pass_detection_witness :
    (1 ≤ uintLE [2, 0, 0, 0] ∧ uintLE [2, 0, 0, 0] ≤ 3) ∧
    detectVersion [2, 0, 0, 0] = Except.ok (2, true) := by
  refine ⟨by decide, ?_⟩
  have h := (version_field_two_pass_detection [2, 0, 0, 0]).1 (by decide)
  simpa using h

/-- C4 counterexample: when the longer key path `a.b.c` is decoded before
the shorter path `a.b`, the second insertion overwrites the subtree and the
longer path's value is lost — the tree does not retain both values. -/
theorem shorter_path_insert_order_counterexample :
    lookupPath
      (insertPath (insertPath (JSVal.obj []) ["a", "b", "c"] (JSVal.num 2))
        ["a", "b"] (JSVal.num 1))
      ["a", "b", "c"] = none := rfl

/-- C4 (amended): when the pair with the shorter key path `p` is decoded
before a pair whose path extends it as `p ++ s` (and `s` does not start with
the synthetic segment `value`, and the shorter value is a scalar), both
values are retained: the shorter value is demoted under a synthetic `value`
child and the longer path keeps its value.  In the opposite decode order the
shorter value overwrites the subtree (see the counterexample). -/
theorem shorter_path_first_is_demoted (p : List String) :
    ∀ (t : JSVal) (s : List String) (v₁ v₂ : JSVal),
    isObject t = true → p ≠ [] → s ≠ [] → isObject v₁ = false →
    s.head? ≠ some "value" →
    lookupPath (insertPath (insertPath t p v₁) (p ++ s) v₂) (p ++ ["value"]) = some v₁ ∧
    lookupPath (insertPath (insertPath t p v₁) (p ++ s) v₂) (p ++ s) = some v₂ := by
  induction p with
  | nil => intro t s v₁ v₂ _ hp _ _ _; exact absurd rfl hp
  | cons k p' ih =>
      intro t s v₁ v₂ ht _ hs hv hsv
      cases p' with
      | nil =>
          obtain ⟨s₁, srest, rfl⟩ : ∃ a l, s = a :: l := by
            cases s with
            | nil => exact absurd rfl hs
            | cons a l => exact ⟨a, l, rfl⟩
          have hs₁ : s₁ ≠ "value" := fun hcon => hsv (by simp [hcon])
          have hgp : getProp (setProp t k v₁) k = some v₁ :=
            getProp_setProp_same t k v₁ ht
          have hchild : childFor (setProp t k v₁) k = JSVal.obj [("value", v₁)] :=
            childFor_eq_demote _ _ _ hgp hv
          have ht₁ : isObject (setProp t k v₁) = true := by
            rw [isObject_setProp]; exact ht
          have hins2 : insertPath (insertPath t [k] v₁) (([k] ++ s₁ :: srest)) v₂ =
              setProp (setProp t k v₁) k
                (insertPath (JSVal.obj [("value", v₁)]) (s₁ :: srest) v₂) := by
            rw [insertPath_one]
            show insertPath (setProp t k v₁) (k :: s₁ :: srest) v₂ = _
            rw [insertPath_cons, hchild]
          have hwval : getProp (insertPath (JSVal.obj [("value", v₁)]) (s₁ :: srest) v₂)
              "value" = some v₁ := by
            cases srest with
            | nil =>
                rw [insertPath_one, getProp_setProp_ne _ _ _ _ (Ne.symm hs₁)]
                rfl
            | cons b bs =>
                rw [insertPath_cons, getProp_setProp_ne _ _ _ _ (Ne.symm hs₁)]
                rfl
          have hgw : getProp (setProp (setProp t k v₁) k
                (insertPath (JSVal.obj [("value", v₁)]) (s₁ :: srest) v₂)) k =
              some (insertPath (JSVal.obj [("value", v₁)]) (s₁ :: srest) v₂) :=
            getProp_setProp_same _ _ _ ht₁
          constructor
          · rw [hins2]
            show lookupPath _ (k :: ["value"]) = some v₁
            rw [lookupPath_cons _ _ _ _ hgw, lookupPath_cons _ _ _ _ hwval]
            rfl
          · rw [hins2]
            show lookupPath _ (k :: s₁ :: srest) = some v₂
            rw [lookupPath_cons _ _ _ _ hgw]
            exact lookupPath_insertPath_self (s₁ :: srest) _ v₂ (by simp) rfl
      | cons a as =>
          have hu : insertPath t (k :: a :: as) v₁ =
              setProp t k (insertPath (childFor t k) (a :: as) v₁) := insertPath_cons ..
          have hgu : getProp (setProp t k (insertPath (childFor t k) (a :: as) v₁)) k =
              some (insertPath (childFor t k) (a :: as) v₁) :=
            getProp_setProp_same _ _ _ ht
          have huobj : isObject (insertPath (childFor t k) (a :: as) v₁) = true :=
            isObject_insertPath _ _ _ (by simp) (isObject_childFor t k)
          have hchild : childFor (setProp t k (insertPath (childFor t k) (a :: as) v₁)) k =
              insertPath (childFor t k) (a :: as) v₁ :=
            childFor_eq_of_object _ _ _ hgu huobj
          have hcat : ∀ (l : List String), (k :: a :: as) ++ l = k :: ((a :: as) ++ l) :=
            fun l => rfl
          have hacons : ∃ b bs, (a :: as) ++ s = b :: bs := ⟨a, as ++ s, rfl⟩
          obtain ⟨b, bs, hbs⟩ := hacons
          have ht₁ : isObject (setProp t k (insertPath (childFor t k) (a :: as) v₁)) = true := by
            rw [isObject_setProp]; exact ht
          have hins2 : insertPath (insertPath t (k :: a :: as) v₁) ((k :: a :: as) ++ s) v₂ =
              setProp (setProp t k (insertPath (childFor t k) (a :: as) v₁)) k
                (insertPath (insertPath (childFor t k) (a :: as) v₁) ((a :: as) ++ s) v₂) := by
            rw [hu, hcat, hbs, insertPath_cons, hchild, ← hbs]
          have hgw : getProp (setProp (setProp t k (insertPath (childFor t k) (a :: as) v₁)) k
                (insertPath (insertPath (childFor t k) (a :: as) v₁) ((a :: as) ++ s) v₂)) k =
              some (insertPath (insertPath (childFor t k) (a :: as) v₁) ((a :: as) ++ s) v₂) :=
            getProp_setProp_same _ _ _ ht₁
          have IH := ih (childFor t k) s v₁ v₂ (isObject_childFor t k) (by simp) hs hv hsv
          constructor
          · rw [hins2, hcat ["value"], lookupPath_cons _ _ _ _ hgw]
            exact IH.1
          · rw [hins2, hcat s, lookupPath_cons _ _ _ _ hgw]
            exact IH.2

theorem shorter_path_first_is_demoted_witness :
    lookupPath
      (insertPath (insertPath (JSVal.obj []) ["a", "b"] (JSVal.num 1))
        (["a", "b"] ++ ["c"]) (JSVal.num 2))
      (["a", "b"] ++ ["value"]) = some (JSVal.num 1) ∧
    lookupPath
      (insertPath (insertPath (JSVal.obj []) ["a", "b"] (JSVal.num 1))
        (["a", "b"] ++ ["c"]) (JSVal.num 2))
      (["a", "b"] ++ ["c"]) = some (JSVal.num 2) :=
  shorter_path_first_is_demoted ["a", "b"] (JSVal.obj []) ["c"]
    (JSVal.num 1) (JSVal.num 2) rfl (by simp) (by simp) rfl (by simp)

/-- C5 counterexample: reading 4 bytes from a 2-byte file raises no error:
the buffer comes back zero-padded to the requested length and the offset
still advances by 4 (Node's `FileHandle.read` into a zeroed buffer). -/
theorem read_truncated_returns_padded :
    readBuf [1, 2] false 0 4 = ([1, 2, 0, 0], 4) ∧
    readBytesAt [1, 2] 0 4 ≠ [1, 2] := by
  constructor
  · rfl
  · decide

/-- C5 (amended): a read of `n` bytes with fewer than `n` remaining does not
fail; it returns a buffer of exactly `n` bytes in which the available file
bytes appear at their positions and every position past the end of the file
is zero. -/
theorem read_past_end_zero_padded (file : List Nat) (off n i : Nat)
    (hi : i < n) :
    (readBytesAt file off n).length = n ∧
    (readBytesAt file off n).getD i 0 =
      (if off + i < file.length then file.getD (off + i) 0 else 0) := by
  have hlen : ((file.drop off).take n).length = min n (file.length - off) := by
    simp [List.length_take, List.length_drop]
  constructor
  · simp only [readBytesAt, List.length_append, List.length_replicate, hlen]
    omega
  · simp only [readBytesAt, List.getD_eq_getElem?_getD]
    by_cases hgoing : i < min n (file.length - off)
    · rw [List.getElem?_append_left (by rw [hlen]; exact hgoing)]
      rw [List.getElem?_take_of_lt (by omega), List.getElem?_drop]
      rw [if_pos (by omega)]
    · rw [List.getElem?_append_right (by rw [hlen]; omega)]
      rw [List.getElem?_replicate_of_lt (by rw [hlen]; omega)]
      rw [if_neg (by omega)]
      rfl

theorem read_past_end_zero_padded_witness :
    (readBytesAt [1, 2] 0 4).length = 4 ∧
    (readBytesAt [1, 2] 0 4).getD 2 0 =
      (if 0 + 2 < [1, 2].length then [1, 2].getD (0 + 2) 0 else 0) :=
  read_past_end_zero_padded [1, 2] 0 4 2 (by decide)

/-- C7 counterexample: in big-endian mode (`littleEndian = false`) the
decoded string bytes are reversed relative to their order in the file: the
file spells "AB" but the decoder returns "BA". -/
theorem string_decode_be_mode_counterexample :
    readType [0, 0, 0, 0, 0, 0, 0, 2, 65, 66] false
      (JSVal.obj [("version", JSVal.num 2)]) 5 8 0 =
      Except.ok (JSVal.str "BA", 10) ∧
    bufToString (readBytesAt [0, 0, 0, 0, 0, 0, 0, 2, 65, 66] 8 2) = "AB" := by
  constructor
  · rfl
  · rfl

/-- C7 (amended): the string payload handed to the UTF-8 decode is
`read(length).reverse()`.  In little-endian mode the two reversals cancel
and the bytes are decoded in their natural file order; in big-endian mode no
prior reversal happened and the bytes are decoded in reverse file order. -/
theorem string_payload_byte_order (file : List Nat) (off n : Nat) :
    ((readBuf file true off n).1).reverse = readBytesAt file off n ∧
    ((readBuf file false off n).1).reverse = (readBytesAt file off n).reverse := by
  constructor
  · simp [readBuf]
  · simp [readBuf]

/-- C6 counterexample: parsing `tokensStream` in quick mode ends at offset
78 — past the fully decoded array value of `tokenizer.ggml.tokens` (the
value's bytes start at offset 57), so the value's bytes were read, not
skipped — and the resulting metadata contains no entry at all for the key,
rather than an empty array. -/
theorem quick_mode_key_counterexample :
    parseGGUFMetadataSt tokensStream true 40 = Except.ok (tokensHeaderAcc, 78) ∧
    Except.map (fun m => lookupPath m ["tokenizer", "ggml", "tokens"])
      (parseGGUFMetadata tokensStream true 40) = Except.ok none := by
  exact ⟨rfl, rfl⟩

/-- C6 (amended): in quick mode, when the key of the current pair is in the
override set, the decoder has already read the key, the type tag and the
whole value (the offset ends up past the value); it then returns the
metadata object unchanged — the pair is not stored and no further key-value
pair is decoded in this invocation. -/
theorem quick_mode_reads_value_then_stops (file : List Nat) (le : Bool)
    (fuel i off o₁ o₂ o₃ : Nat) (acc tv vv : JSVal) (key : String)
    (hlt : jsLtNum i (getProp acc "kv_count") = true)
    (hk : readType file le acc fuel 8 off = Except.ok (JSVal.str key, o₁))
    (ht : readType file le acc fuel 4 o₁ = Except.ok (tv, o₂))
    (hv : readType file le acc fuel (jsToNat tv) o₂ = Except.ok (vv, o₃))
    (hov : (metadataOverride key).isSome = true) :
    parseKVLoop file le true (fuel + 1) i acc off = Except.ok (acc, o₃) := by
  simp only [parseKVLoop, hlt, hk, ht, hv, asStr, hov, if_true, Bool.true_and]

theorem quick_mode_reads_value_then_stops_witness :
    parseKVLoop tokensStream true true 40 0 tokensHeaderAcc 24 =
      Except.ok (tokensHeaderAcc, 78) := by
  have h := quick_mode_reads_value_then_stops tokensStream true 39 0 24 53 57 78
    tokensHeaderAcc (JSVal.num 9) (JSVal.arr [JSVal.str "x"] [])
    "tokenizer.ggml.tokens" rfl rfl rfl rfl rfl
  exact h

/-- C10: also outside quick mode, a pair whose key is in the override set is
inserted into the metadata tree with the override value — which is the empty
array for every key of the set — and the decoded value `vv` is discarded. -/
theorem override_key_stored_as_empty_array (file : List Nat) (le : Bool)
    (fuel i off o₁ o₂ o₃ : Nat) (acc tv vv ov : JSVal) (key : String)
    (hlt : jsLtNum i (getProp acc "kv_count") = true)
    (hk : readType file le acc fuel 8 off = Except.ok (JSVal.str key, o₁))
    (ht : readType file le acc fuel 4 o₁ = Except.ok (tv, o₂))
    (hv : readType file le acc fuel (jsToNat tv) o₂ = Except.ok (vv, o₃))
    (hov : metadataOverride key = some ov) :
    parseKVLoop file le false (fuel + 1) i acc off =
      parseKVLoop file le false fuel (i + 1)
        (insertPath acc (splitOnDot key) ov) o₃ ∧
    ov = JSVal.arr [] [] := by
  have hova : ov = JSVal.arr [] [] := by
    unfold metadataOverride at hov
    split at hov
    · exact (Option.some.inj hov).symm
    · cases hov
  refine ⟨?_, hova⟩
  simp only [parseKVLoop, hlt, hk, ht, hv, asStr, hov, if_true, Bool.false_and,
    if_false, Option.getD_some]
  simp

theorem override_key_stored_as_empty_array_witness :
    parseKVLoop tokensStream true false 40 0 tokensHeaderAcc 24 =
      parseKVLoop tokensStream true false 39 1
        (insertPath tokensHeaderAcc (splitOnDot "tokenizer.ggml.tokens")
          (JSVal.arr [] [])) 78 := by
  have h := override_key_stored_as_empty_array tokensStream true 39 0 24 53 57 78
    tokensHeaderAcc (JSVal.num 9) (JSVal.arr [JSVal.str "x"] []) (JSVal.arr [] [])
    "tokenizer.ggml.tokens" rfl rfl rfl rfl rfl
  exact h.1

/-- C9 counterexample: a successful response whose body carries an *empty*
`errors` array does fail, but with a `TypeError` from `json.errors[0].message`,
not with a `RegistryError` carrying any error field. -/
theorem registry_empty_errors_counterexample :
    (ManifestBody.mk (some [])).errors.isSome = true ∧
    downloadJSON "https://registry.ollama.ai/v2/library/foo/manifests/latest"
      true "OK" (ManifestBody.mk (some [])) = Except.error FetchErr.typeError ∧
    isRegistryError
      (downloadJSON "https://registry.ollama.ai/v2/library/foo/manifests/latest"
        true "OK" (ManifestBody.mk (some []))) = false := by
  exact ⟨rfl, rfl, rfl⟩

/-- C9 (amended): a successful response whose body carries a nonempty
`errors` array fails with the registry error message built from the first
error: its `message` field when present and nonempty, otherwise its `code`
field when present and nonempty, otherwise the empty string. -/
theorem registry_error_field_selection (url statusText : String)
    (j : ManifestBody) (e : RegErrorObj) (es : List RegErrorObj) (m c : String)
    (h : j.errors = some (e :: es)) :
    (e.message = some m → m ≠ "" →
      downloadJSON url true statusText j =
        Except.error (FetchErr.registryError ("failed to download " ++ url ++ ": " ++ m))) ∧
    ((e.message = none ∨ e.message = some "") → e.code = some c → c ≠ "" →
      downloadJSON url true statusText j =
        Except.error (FetchErr.registryError ("failed to download " ++ url ++ ": " ++ c))) ∧
    ((e.message = none ∨ e.message = some "") → (e.code = none ∨ e.code = some "") →
      downloadJSON url true statusText j =
        Except.error (FetchErr.registryError ("failed to download " ++ url ++ ": "))) := by
  refine ⟨fun hm hmne => ?_, fun hm hc hcne => ?_, fun hm hc => ?_⟩
  · simp [downloadJSON, handleManifestJSON, h, jsOrStr, hm, hmne]
  · rcases hm with hm | hm <;>
      simp [downloadJSON, handleManifestJSON, h, jsOrStr, hm, hc, hcne]
  · rcases hm with hm | hm <;> rcases hc with hc | hc <;>
      simp [downloadJSON, handleManifestJSON, h, jsOrStr, hm, hc]

/-- The layer loop with an empty override mapping, no output directory and
no force flag: every layer passes through unchanged, and a download action is
emitted exactly for the blobs that are not already present. -/
theorem no_override_fold (env : Env) (blobsUrl blobsDir modelName : String) :
    ∀ (layers : List Layer) (st : RecSt), st.localFiles = [] →
    ∃ st', List.foldlM (processLayer env blobsUrl blobsDir none modelName false)
        st layers = Except.ok st' ∧
      st'.newLayers = st.newLayers ++ layers ∧
      st'.localFiles = [] ∧
      ∀ a ∈ st'.actions, a ∈ st.actions ∨ ∃ l ∈ layers,
        a = Action.downloadToFile (blobsUrl ++ "/" ++ l.digest)
              (pathJoin blobsDir (replaceColonDash l.digest)) ∧
        env.fsExists (pathJoin blobsDir (replaceColonDash l.digest)) = false := by
  intro layers
  induction layers with
  | nil =>
      intro st h
      exact ⟨st, rfl, by simp, h, fun a ha => Or.inl ha⟩
  | cons layer rest ih =>
      intro st h
      have hlook : lookupOv st.localFiles (normalizeMediaType layer.mediaType) = none := by
        rw [h]; rfl
      have hstep : processLayer env blobsUrl blobsDir none modelName false st layer =
          Except.ok (layerNoFile env (blobsUrl ++ "/" ++ layer.digest)
            (pathJoin blobsDir (replaceColonDash layer.digest)) false st layer) := by
        simp only [processLayer, hlook, getFileInDir, layerStep]
      cases hex : fileExistsE env st.written
          (pathJoin blobsDir (replaceColonDash layer.digest)) with
      | false =>
          have hnl : layerNoFile env (blobsUrl ++ "/" ++ layer.digest)
              (pathJoin blobsDir (replaceColonDash layer.digest)) false st layer =
              { st with
                newLayers := st.newLayers ++ [layer],
                actions := st.actions ++ [Action.downloadToFile
                  (blobsUrl ++ "/" ++ layer.digest)
                  (pathJoin blobsDir (replaceColonDash layer.digest))],
                written := st.written ++
                  [pathJoin blobsDir (replaceColonDash layer.digest)] } := by
            simp [layerNoFile, hex]
          obtain ⟨st', h1, h2, h3, h4⟩ := ih
            { st with
              newLayers := st.newLayers ++ [layer],
              actions := st.actions ++ [Action.downloadToFile
                (blobsUrl ++ "/" ++ layer.digest)
                (pathJoin blobsDir (replaceColonDash layer.digest))],
              written := st.written ++
                [pathJoin blobsDir (replaceColonDash layer.digest)] } h
          refine ⟨st', ?_, ?_, h3, ?_⟩
          · rw [List.foldlM_cons, hstep, bind_ok, hnl]
            exact h1
          · rw [h2]
            simp
          · intro a ha
            rcases h4 a ha with hmem | ⟨l, hl, he⟩
            · simp only [List.mem_append, List.mem_singleton] at hmem
              rcases hmem with hmem | rfl
              · exact Or.inl hmem
              · refine Or.inr ⟨layer, List.mem_cons_self _ _, rfl, ?_⟩
                exact fsExists_of_not_fileExistsE env st.written _
                  (pathJoin_ne_empty _ _) hex
            · exact Or.inr ⟨l, List.mem_cons_of_mem _ hl, he⟩
      | true =>
          have hnl : layerNoFile env (blobsUrl ++ "/" ++ layer.digest)
              (pathJoin blobsDir (replaceColonDash layer.digest)) false st layer =
              { st with newLayers := st.newLayers ++ [layer] } := by
            simp [layerNoFile, hex]
          obtain ⟨st', h1, h2, h3, h4⟩ := ih
            { st with newLayers := st.newLayers ++ [layer] } h
          refine ⟨st', ?_, ?_, h3, ?_⟩
          · rw [List.foldlM_cons, hstep, bind_ok, hnl]
            exact h1
          · rw [h2]
            simp
          · intro a ha
            rcases h4 a ha with hmem | ⟨l, hl, he⟩
            · exact Or.inl hmem
            · exact Or.inr ⟨l, List.mem_cons_of_mem _ hl, he⟩

/-- C2: reconciling with an empty override mapping, no output directory and
the force flag unset produces exactly the source layer list (same digests,
sizes and order — indeed the same layers), and the only actions are blob
downloads targeting blobs that were not already present in the store: no
existing blob is re-downloaded. -/
theorem reconcile_no_overrides_identity (env : Env)
    (blobsUrl blobsDir modelName : String) (layers : List Layer) :
    ∃ st, downloadLayers env blobsUrl blobsDir layers [] none modelName false =
        Except.ok st ∧
      st.newLayers = layers ∧
      ∀ a ∈ st.actions, ∃ l ∈ layers,
        a = Action.downloadToFile (blobsUrl ++ "/" ++ l.digest)
              (pathJoin blobsDir (replaceColonDash l.digest)) ∧
        env.fsExists (pathJoin blobsDir (replaceColonDash l.digest)) = false := by
  obtain ⟨st', h1, h2, h3, h4⟩ := no_override_fold env blobsUrl blobsDir modelName
    layers ⟨[], [], [], [], []⟩ rfl
  refine ⟨st', ?_, by simpa using h2, fun a ha => ?_⟩
  · simp only [downloadLayers]
    rw [h1, bind_ok, h3]
    rfl
  · rcases h4 a ha with hmem | hgood
    · exact absurd hmem (List.not_mem_nil a)
    · exact hgood

/-- C3: for a layer whose (normalized) mediaType has a local-file candidate
that exists, the reconciled layer keeps the layer's mediaType but carries the
digest and size recomputed from the candidate file, the blob store gains the
entry keyed by the recomputed digest, and a symlink keyed by that digest and
pointing at the candidate's resolved path is emitted; the consumed candidate
is removed from the override entry. -/
theorem local_candidate_rehash_and_symlink (env : Env) (blobsUrl blobsDir : String)
    (outDir : Option String) (modelName : String) (force : Bool)
    (st : RecSt) (layer : Layer) (f : String) (fs : List String)
    (hov : lookupOv st.localFiles (normalizeMediaType layer.mediaType) =
      some (Override.files (f :: fs)))
    (hne : f ≠ "")
    (hex : fileExistsE env st.written f = true)
    (hd : digestLinkable (env.digestOf f).toList = true) :
    processLayer env blobsUrl blobsDir outDir modelName force st layer =
      Except.ok { st with
        newLayers := st.newLayers ++
          [{ mediaType := layer.mediaType, digest := env.digestOf f,
             size := env.sizeOf f }],
        actions := st.actions ++
          [Action.symlink blobsDir (env.digestOf f) (env.resolve f)],
        localFiles := setOv st.localFiles (normalizeMediaType layer.mediaType)
          (Override.files fs),
        written := st.written ++
          [pathJoin blobsDir (replaceColonDash (env.digestOf f))] } := by
  simp only [processLayer, hov, List.head?, List.tail_cons, layerStep,
    if_neg hne, hex, createSymlink, hd, if_true, Except.map]

/-- A concrete file-system environment for the reconciler witnesses: every
path exists, every file hashes to the same well-formed digest, has size 5,
and resolves under `/abs`. -/
def envAllFiles : Env :=
  { fsExists := fun _ => true,
    digestOf := fun _ => "sha256:0123456789abcdef",
    sizeOf := fun _ => 5,
    resolve := fun p => "/abs/" ++ p }

theorem local_candidate_rehash_and_symlink_witness :
    processLayer envAllFiles "https://r/v2/library/m/blobs" "/models/blobs" none
      "mymodel" false
      ⟨[], [], [("application/vnd.ollama.image.model", Override.files ["m.gguf"])], [], []⟩
      ⟨"application/vnd.ollama.image.model", "sha256:declareddigest", 10⟩ =
      Except.ok
        ⟨[⟨"application/vnd.ollama.image.model", "sha256:0123456789abcdef", 5⟩],
         [Action.symlink "/models/blobs" "sha256:0123456789abcdef" "/abs/m.gguf"],
         [("application/vnd.ollama.image.model", Override.files [])],
         [],
         ["/models/blobs/sha256-0123456789abcdef"]⟩ := by
  have h := local_candidate_rehash_and_symlink envAllFiles
    "https://r/v2/library/m/blobs" "/models/blobs" none "mymodel" false
    ⟨[], [], [("application/vnd.ollama.image.model", Override.files ["m.gguf"])], [], []⟩
    ⟨"application/vnd.ollama.image.model", "sha256:declareddigest", 10⟩
    "m.gguf" [] (by decide) (by decide) (by decide) (by decide)
  exact h

/-- The invariant carried through reconciliation for claim C8: the key `K`
is excluded in the override mapping, no override key carries the `.prompt`
spelling of a role (the program builds its keys from the fixed option set,
which has no `prompt` member), keys are unique, and no emitted layer has
role `K`. -/
def ExcludedInv (K : String) (st : RecSt) : Prop :=
  lookupOv st.localFiles K = some Override.excluded ∧
  (∀ p ∈ st.localFiles, strEndsWith (Prod.fst p) ".prompt" = false) ∧
  (st.localFiles.map Prod.fst).Nodup ∧
  ∀ l ∈ st.newLayers, normalizeMediaType l.mediaType ≠ K

theorem excluded_inv_processLayer (env : Env) (bu bd : String) (od : Option String)
    (mn : String) (force : Bool) (K : String) (st : RecSt) (layer : Layer)
    (st' : RecSt) (hinv : ExcludedInv K st)
    (h : processLayer env bu bd od mn force st layer = Except.ok st') :
    ExcludedInv K st' := by
  obtain ⟨hK, hpr, hnd, hnew⟩ := hinv
  cases hl : lookupOv st.localFiles (normalizeMediaType layer.mediaType) with
  | none =>
      have hmt : normalizeMediaType layer.mediaType ≠ K := by
        intro he
        rw [he, hK] at hl
        cases hl
      simp only [processLayer, hl] at h
      rcases hg : getFileInDir od layer.mediaType mn st.cnt with ⟨f, cnt'⟩
      rw [hg] at h
      obtain ⟨hlf, _, lx, hlx, hnl⟩ := layerStep_shape _ _ _ _ _ _ _ _ _ h
      refine ⟨by rw [hlf]; exact hK, by rw [hlf]; exact hpr,
        by rw [hlf]; exact hnd, ?_⟩
      rw [hnl]
      intro l hlmem
      rcases List.mem_append.mp hlmem with hml | hml
      · exact hnew l hml
      · obtain rfl := List.mem_singleton.mp hml
        rw [hlx]
        exact hmt
  | some ov =>
      cases ov with
      | excluded =>
          simp only [processLayer, hl] at h
          obtain rfl := Except.ok.inj h
          exact ⟨hK, hpr, hnd, hnew⟩
      | files fs =>
          have hmt : normalizeMediaType layer.mediaType ≠ K := by
            intro he
            rw [he, hK] at hl
            exact Override.noConfusion (Option.some.inj hl)
          have hmem0 : (normalizeMediaType layer.mediaType, Override.files fs) ∈
              st.localFiles := lookupOv_mem hl
          simp only [processLayer, hl] at h
          obtain ⟨hlf, _, lx, hlx, hnl⟩ := layerStep_shape _ _ _ _ _ _ _ _ _ h
          refine ⟨?_, ?_, ?_, ?_⟩
          · rw [hlf]
            show lookupOv (setOv st.localFiles (normalizeMediaType layer.mediaType)
              (Override.files fs.tail)) K = some Override.excluded
            rw [lookupOv_set_ne _ _ _ _ (Ne.symm hmt)]
            exact hK
          · rw [hlf]
            show ∀ p ∈ setOv st.localFiles (normalizeMediaType layer.mediaType)
              (Override.files fs.tail), strEndsWith (Prod.fst p) ".prompt" = false
            intro p hp
            rcases mem_setOv hp with hp1 | rfl
            · exact hpr p hp1
            · exact hpr (normalizeMediaType layer.mediaType, Override.files fs) hmem0
          · rw [hlf]
            show ((setOv st.localFiles (normalizeMediaType layer.mediaType)
              (Override.files fs.tail)).map Prod.fst).Nodup
            rw [setOv_keys _ _ _ _ hl]
            exact hnd
          · rw [hnl]
            intro l hlmem
            rcases List.mem_append.mp hlmem with hml | hml
            · exact hnew l hml
            · obtain rfl := List.mem_singleton.mp hml
              rw [hlx]
              exact hmt

theorem excluded_inv_processCandidate (env : Env) (bd mt K : String)
    (st : RecSt) (f : String) (st' : RecSt)
    (hmt : normalizeMediaType mt ≠ K)
    (hinv : ExcludedInv K st)
    (h : processCandidate env bd mt st f = Except.ok st') :
    ExcludedInv K st' ∧ st'.localFiles = st.localFiles := by
  obtain ⟨hK, hpr, hnd, hnew⟩ := hinv
  simp only [processCandidate] at h
  split at h
  · obtain rfl := Except.ok.inj h
    exact ⟨⟨hK, hpr, hnd, hnew⟩, rfl⟩
  · simp only [createSymlink] at h
    split at h
    · simp only [Except.map] at h
      obtain rfl := Except.ok.inj h
      refine ⟨⟨hK, hpr, hnd, ?_⟩, rfl⟩
      intro l hl
      rcases List.mem_append.mp hl with hml | hml
      · exact hnew l hml
      · obtain rfl := List.mem_singleton.mp hml
        exact hmt
    · simp only [Except.map] at h
      exact Except.noConfusion h

/-- C8: when a role key `K` is explicitly excluded in the override mapping
(and the mapping's keys are unique and never use the `.prompt` spelling, as
the program's fixed key set guarantees), no layer of the reconciled manifest
has role `K`: matching manifest layers are dropped and no trailing candidate
layer of that role is appended. -/
theorem excluded_role_yields_no_layers (env : Env) (blobsUrl blobsDir : String)
    (outDir : Option String) (modelName : String) (force : Bool)
    (layers : List Layer) (localFiles : List (String × Override)) (K : String)
    (st : RecSt)
    (hK : lookupOv localFiles K = some Override.excluded)
    (hpr : ∀ p ∈ localFiles, strEndsWith (Prod.fst p) ".prompt" = false)
    (hnd : (localFiles.map Prod.fst).Nodup)
    (hres : downloadLayers env blobsUrl blobsDir layers localFiles outDir
      modelName force = Except.ok st) :
    ∀ l ∈ st.newLayers, normalizeMediaType l.mediaType ≠ K := by
  simp only [downloadLayers] at hres
  cases h₁ : List.foldlM (processLayer env blobsUrl blobsDir outDir modelName force)
      (⟨[], [], localFiles, [], []⟩ : RecSt) layers with
  | error e =>
      rw [h₁, bind_error] at hres
      exact Except.noConfusion hres
  | ok st₁ =>
      rw [h₁, bind_ok] at hres
      have hinv₁ : ExcludedInv K st₁ :=
        foldlM_inv _ (ExcludedInv K) layers
          (fun s a _ hp s' hf =>
            excluded_inv_processLayer env blobsUrl blobsDir outDir modelName force
              K s a s' hp hf)
          _ st₁ ⟨hK, hpr, hnd, fun l hl => absurd hl (List.not_mem_nil l)⟩ h₁
      have hfin := foldlM_inv
        (fun s (p : String × Override) =>
          match p.2 with
          | Override.excluded => Except.ok s
          | Override.files fs => List.foldlM (processCandidate env blobsDir p.1) s fs)
        (fun s => ExcludedInv K s ∧ s.localFiles = st₁.localFiles)
        st₁.localFiles
        (fun s p hpmem hp s' hg => by
          obtain ⟨hsi, hseq⟩ := hp
          replace hg : (match p.2 with
            | Override.excluded => Except.ok s
            | Override.files fs =>
                List.foldlM (processCandidate env blobsDir (Prod.fst p)) s fs) =
              Except.ok s' := hg
          cases hov : p.2 with
          | excluded =>
              rw [hov] at hg
              obtain rfl := Except.ok.inj hg
              exact ⟨hsi, hseq⟩
          | files fs =>
              have hpm' : p ∈ s.localFiles := by rw [hseq]; exact hpmem
              have hep : strEndsWith (Prod.fst p) ".prompt" = false := hsi.2.1 p hpm'
              have hns : normalizeMediaType (Prod.fst p) ≠ K := by
                rw [normalizeMediaType_eq_self hep]
                intro he
                have hmemp : (Prod.fst p, Override.files fs) ∈ s.localFiles := by
                  rw [← hov]
                  exact hpm'
                have hlook : lookupOv s.localFiles (Prod.fst p) =
                    some (Override.files fs) :=
                  lookupOv_of_mem_nodup hmemp hsi.2.2.1
                rw [he, hsi.1] at hlook
                exact Override.noConfusion (Option.some.inj hlook)
              rw [hov] at hg
              exact foldlM_inv (processCandidate env blobsDir (Prod.fst p))
                (fun s2 => ExcludedInv K s2 ∧ s2.localFiles = st₁.localFiles)
                fs
                (fun s2 f _ hp2 s2' hf2 => by
                  obtain ⟨hi2, heq2⟩ := hp2
                  obtain ⟨hi3, heq3⟩ := excluded_inv_processCandidate env blobsDir
                    (Prod.fst p) K s2 f s2' hns hi2 hf2
                  exact ⟨hi3, by rw [heq3, heq2]⟩)
                s s' ⟨hsi, hseq⟩ hg)
        st₁ st ⟨hinv₁, rfl⟩ hres
      exact hfin.1.2.2.2

theorem excluded_role_yields_no_layers_witness :
    normalizeMediaType "application/vnd.ollama.image.model" ≠
      "application/vnd.ollama.image.license" := by
  have h := excluded_role_yields_no_layers envAllFiles "https://r/v2/library/m/blobs"
    "/models/blobs" none "mymodel" false
    [⟨"application/vnd.ollama.image.license", "sha256:licensedigest0", 3⟩,
     ⟨"application/vnd.ollama.image.model", "sha256:modeldigest000", 10⟩]
    [("application/vnd.ollama.image.license", Override.excluded)]
    "application/vnd.ollama.image.license"
    ⟨[⟨"application/vnd.ollama.image.model", "sha256:modeldigest000", 10⟩], [],
     [("application/vnd.ollama.image.license", Override.excluded)], [], []⟩
    (by decide) (by decide) (by decide) (by decide)
  exact h ⟨"application/vnd.ollama.image.model", "sha256:modeldigest000", 10⟩
    (by decide)

theorem registry_error_field_selection_witness :
    downloadJSON "u" true "OK"
      (ManifestBody.mk (some [RegErrorObj.mk none (some "NAME_UNKNOWN")])) =
      Except.error (FetchErr.registryError "failed to download u: NAME_UNKNOWN") := by
  have h := (registry_error_field_selection "u" "OK"
    (ManifestBody.mk (some [RegErrorObj.mk none (some "NAME_UNKNOWN")]))
    (RegErrorObj.mk none (some "NAME_UNKNOWN")) [] "" "NAME_UNKNOWN" rfl).2.1
    (Or.inl rfl) rfl (by decide)
  simpa using h

end OllamaCreate
